import Mathlib

/-!
Verification of the steep_repl replication-coordination engine.

This file gives a shallow embedding of the core engines of the steep
extension (src/extensions/steep_repl/src): the work queue
(work_queue.rs), the shared-memory progress monitor (progress.rs), the
schema fingerprint function (fingerprint_functions.rs), the merge/diff
comparison and quiesce protocol (merge.rs), and the merge strategy
constraints (merge_audit_log.rs).  SQL rows become Lean structures, the
work_queue table becomes a list of rows, and each SQL/Rust operation
becomes a pure state transition.  Timestamps and 64-bit ids/hashes are
modelled as `Int`; `f32`/`f64` progress ratios are modelled as `ℚ`
(every float operation involved - i64→f64 conversion, division,
multiplication by 100, f64→f32 rounding - is monotone, so order-shaped
statements about the rational model transfer to the float code).

Concurrency model for the queue: `claim_next_work` performs
SELECT … FOR UPDATE SKIP LOCKED followed by an UPDATE of the selected
row inside one transaction, so the row-level lock serializes rival
claimers on each row and every claim acts as one atomic
read-check-update step.  N-way concurrent claiming is therefore
embedded as an arbitrary sequence of atomic claim transitions.
-/

namespace SteepRepl

/-- Values of the work_queue.status column
(work_queue_status_check, work_queue.rs lines 374-376). -/
inductive WorkStatus where
  | pending
  | running
  | complete
  | failed
  | cancelled
deriving DecidableEq, Repr

/-- Values of the work_queue.operation column
(work_queue_operation_check, work_queue.rs lines 371-373). -/
inductive WorkOperation where
  | snapshotGenerate
  | snapshotApply
  | bidirectionalMerge
deriving DecidableEq, Repr

/-- One row of steep_repl.work_queue (work_queue.rs lines 342-385).
`params` (a JSONB object in the source) is modelled as a key-value list;
no operation inspects it.  UUIDs are modelled as strings. -/
structure WorkRow where
  id : Int
  operation : WorkOperation
  snapshot_id : Option String
  merge_id : Option String
  params : List (String × String)
  status : WorkStatus
  worker_pid : Option Int
  error_message : Option String
  created_at : Int
  started_at : Option Int
  completed_at : Option Int
deriving DecidableEq, Repr

/-- The work_queue table: a list of rows, insertion ordered. -/
abbrev WorkQueue := List WorkRow

/-- Row lookup by primary key (WHERE id = …). -/
def rowOf (q : WorkQueue) (id : Int) : Option WorkRow :=
  q.find? (fun r => r.id == id)

/-- Status of the row with the given id. -/
def statusOf (q : WorkQueue) (id : Int) : Option WorkStatus :=
  (rowOf q id).map (·.status)

/-- ORDER BY created_at LIMIT 1: the row with minimal created_at,
preferring the first in list order on ties. -/
def selectOldest : List WorkRow → Option WorkRow
  | [] => none
  | r :: rest =>
    match selectOldest rest with
    | none => some r
    | some b => if b.created_at < r.created_at then some b else some r

/-- The UPDATE of claim_next_work step 2 (work_queue.rs lines 97-104):
SET status = 'running', started_at = now(), worker_pid = pg_backend_pid()
WHERE id = selId. -/
def claimUpdate (w now selId : Int) (s : WorkRow) : WorkRow :=
  if s.id == selId then
    { s with status := .running, started_at := some now, worker_pid := some w }
  else s

/-- claim_next_work (work_queue.rs lines 74-145) and steep_repl.claim_work
(lines 432-457): select the oldest pending row (FOR UPDATE SKIP LOCKED -
the row lock makes the select+update pair atomic against rival claimers),
mark it running with the caller's pid and the claim time, and return the
updated row.  `w` is pg_backend_pid(), `now` is now(). -/
def claim_next_work (w now : Int) (q : WorkQueue) : Option WorkRow × WorkQueue :=
  match selectOldest (q.filter (fun r => r.status == .pending)) with
  | none => (none, q)
  | some sel => (some (claimUpdate w now sel.id sel), q.map (claimUpdate w now sel.id))

/-- complete_work_entry (work_queue.rs lines 150-158) / steep_repl.complete_work:
UPDATE … SET status = 'complete', completed_at = now()
WHERE id = … AND status = 'running'. -/
def complete_work_entry (id now : Int) (q : WorkQueue) : WorkQueue :=
  q.map fun r =>
    if r.id == id && r.status == .running then
      { r with status := .complete, completed_at := some now }
    else r

/-- fail_work_entry (work_queue.rs lines 163-173) / steep_repl.fail_work:
UPDATE … SET status = 'failed', completed_at = now(), error_message = …
WHERE id = … AND status = 'running'. -/
def fail_work_entry (id : Int) (err : String) (now : Int) (q : WorkQueue) : WorkQueue :=
  q.map fun r =>
    if r.id == id && r.status == .running then
      { r with status := .failed, completed_at := some now, error_message := some err }
    else r

/-- cancel_work_entry (work_queue.rs lines 178-192) / steep_repl.cancel_work:
UPDATE … SET status = 'cancelled', completed_at = now()
WHERE id = … AND status IN ('pending','running'); returns whether any
row was updated. -/
def cancel_work_entry (id now : Int) (q : WorkQueue) : Bool × WorkQueue :=
  (!(q.filter (fun r => r.id == id && (r.status == .pending || r.status == .running))).isEmpty,
   q.map fun r =>
     if r.id == id && (r.status == .pending || r.status == .running) then
       { r with status := .cancelled, completed_at := some now }
     else r)

/-- The WHERE clause of recover_abandoned_work: status = 'running' AND
NOT EXISTS (SELECT 1 FROM pg_stat_activity WHERE pid = wq.worker_pid).
`alive` is the process-liveness oracle (pg_stat_activity).  A NULL
worker_pid makes the EXISTS subquery empty, so such rows also count as
dead. -/
def deadClaimant (alive : Int → Bool) (r : WorkRow) : Bool :=
  r.status == .running &&
    (match r.worker_pid with
     | some p => !alive p
     | none => true)

/-- The synthetic error text attached by recover_abandoned_work
(work_queue.rs line 320). -/
def recoverMsg (pid : Int) : String :=
  "Worker process terminated unexpectedly (PID " ++ toString pid ++ ")"

/-- recover_abandoned_work (work_queue.rs lines 314-332, SQL lines 516-535):
force every running row with a dead claimant to failed with the synthetic
message and return how many rows were updated.  In SQL,
'…' || worker_pid is NULL when worker_pid is NULL, hence the
`Option.map`. -/
def recover_abandoned_work (alive : Int → Bool) (now : Int) (q : WorkQueue) :
    Int × WorkQueue :=
  (((q.filter (deadClaimant alive)).length : Int),
   q.map fun r =>
     if deadClaimant alive r then
       { r with status := .failed, completed_at := some now,
                error_message := r.worker_pid.map recoverMsg }
     else r)

/-- CHECK constraint work_queue_snapshot_required (work_queue.rs
lines 377-380). -/
def work_queue_snapshot_required (r : WorkRow) : Bool :=
  ((r.operation == .snapshotGenerate || r.operation == .snapshotApply)
      && r.snapshot_id.isSome)
    || r.operation == .bidirectionalMerge

/-- CHECK constraint work_queue_merge_required (work_queue.rs
lines 381-384). -/
def work_queue_merge_required (r : WorkRow) : Bool :=
  (r.operation == .bidirectionalMerge && r.merge_id.isSome)
    || (r.operation == .snapshotGenerate || r.operation == .snapshotApply)

/-- INSERT INTO steep_repl.work_queue: the row is appended when it
satisfies the CHECK constraints, otherwise the statement is rejected
(`none`).  The operation and status CHECKs hold by typing of the
embedded row. -/
def insertWorkRow (r : WorkRow) (q : WorkQueue) : Option WorkQueue :=
  if work_queue_snapshot_required r && work_queue_merge_required r then
    some (q ++ [r])
  else none

/-- queue_snapshot_generate (work_queue.rs lines 197-223): insert a
pending snapshot_generate row.  `newId` is the BIGSERIAL value and `now`
the created_at default. -/
def queue_snapshot_generate (sid output_path compression : String)
    (parallel : Int) (newId now : Int) (q : WorkQueue) : Option (Int × WorkQueue) :=
  (insertWorkRow
    { id := newId, operation := .snapshotGenerate, snapshot_id := some sid,
      merge_id := none,
      params := [("output_path", output_path), ("compression", compression),
                 ("parallel", toString parallel)],
      status := .pending, worker_pid := none, error_message := none,
      created_at := now, started_at := none, completed_at := none } q).map
    (fun q2 => (newId, q2))

/-- queue_snapshot_apply (work_queue.rs lines 228-253). -/
def queue_snapshot_apply (sid input_path : String) (parallel : Int)
    (verify : Bool) (newId now : Int) (q : WorkQueue) : Option (Int × WorkQueue) :=
  (insertWorkRow
    { id := newId, operation := .snapshotApply, snapshot_id := some sid,
      merge_id := none,
      params := [("input_path", input_path), ("parallel", toString parallel),
                 ("verify", toString verify)],
      status := .pending, worker_pid := none, error_message := none,
      created_at := now, started_at := none, completed_at := none } q).map
    (fun q2 => (newId, q2))

/-- queue_bidirectional_merge (work_queue.rs lines 258-290). -/
def queue_bidirectional_merge (mergeId peer_connstr : String)
    (tables : List String) (strategy : String) (dry_run : Bool)
    (newId now : Int) (q : WorkQueue) : Option (Int × WorkQueue) :=
  (insertWorkRow
    { id := newId, operation := .bidirectionalMerge, snapshot_id := none,
      merge_id := some mergeId,
      params := [("peer_connstr", peer_connstr),
                 ("tables", String.intercalate "," tables),
                 ("strategy", strategy), ("dry_run", toString dry_run)],
      status := .pending, worker_pid := none, error_message := none,
      created_at := now, started_at := none, completed_at := none } q).map
    (fun q2 => (newId, q2))

/-- Exactly one of the two subject-id columns is populated
(spec §3 WorkItem invariant). -/
def exactlyOneSubjectId (r : WorkRow) : Bool :=
  (r.snapshot_id.isSome && r.merge_id.isNone)
    || (r.snapshot_id.isNone && r.merge_id.isSome)

/-- The operations of the work-queue API exposed by work_queue.rs
(claim, complete, fail, cancel, recover). -/
inductive QueueOp where
  | claim (w now : Int)
  | complete (id now : Int)
  | fail (id : Int) (err : String) (now : Int)
  | cancel (id now : Int)
  | recover (alive : Int → Bool) (now : Int)

/-- Effect of one API operation on the queue (return values dropped). -/
def applyOp : QueueOp → WorkQueue → WorkQueue
  | .claim w now, q => (claim_next_work w now q).2
  | .complete id now, q => complete_work_entry id now q
  | .fail id e now, q => fail_work_entry id e now q
  | .cancel id now, q => (cancel_work_entry id now q).2
  | .recover alive now, q => (recover_abandoned_work alive now q).2

/-- A sequence of API operations, applied left to right. -/
def applyOps (ops : List QueueOp) (q : WorkQueue) : WorkQueue :=
  ops.foldl (fun s op => applyOp op s) q

/-- A sequence of claim calls by (pid, time) pairs: each call is one
atomic claim transition (N concurrent claimers in any interleaving).
Returns the per-call results and the final queue. -/
def claimMany : List (Int × Int) → WorkQueue → List (Option WorkRow) × WorkQueue
  | [], q => ([], q)
  | c :: rest, q =>
    let p := claim_next_work c.1 c.2 q
    let pr := claimMany rest p.2
    (p.1 :: pr.1, pr.2)

/-- The ids of the successfully claimed entries of a claim sequence. -/
def claimedIds (results : List (Option WorkRow)) : List Int :=
  results.filterMap (fun o => o.map (·.id))

/-- Terminal statuses: complete, failed, cancelled (spec §4.1). -/
def terminalStatus : WorkStatus → Bool
  | .complete => true
  | .failed => true
  | .cancelled => true
  | _ => false

/-- The one-step status transitions realizable by the work-queue API:
stay put, pending→running (claim), pending→cancelled (cancel), or
running→complete/failed/cancelled (spec §4.1 state machine). -/
def statusStepOk (a b : WorkStatus) : Bool :=
  a == b
    || (a == .pending && (b == .running || b == .cancelled))
    || (a == .running && (b == .complete || b == .failed || b == .cancelled))

/-! Progress monitor (progress.rs).  The shared-memory struct is a single
slot; the background worker mutates it under an exclusive lock and
readers take a shared lock, so every mutator call and every reader call
sees a consistent struct and the embedding is a plain functional state.
Fixed-size C strings become byte lists truncated at LEN-1. -/

/-- ProgressPhase (progress.rs lines 27-39). -/
inductive ProgressPhase where
  | idle
  | schema
  | data
  | sequences
  | indexes
  | constraints
  | verify
  | finalizing
  | complete
  | failed
deriving DecidableEq, Repr

/-- The `#[repr(i32)]` discriminant of ProgressPhase. -/
def ProgressPhase.toI32 : ProgressPhase → Int
  | .idle => 0
  | .schema => 1
  | .data => 2
  | .sequences => 3
  | .indexes => 4
  | .constraints => 5
  | .verify => 6
  | .finalizing => 7
  | .complete => 8
  | .failed => 9

/-- ProgressPhase::from_i32 (progress.rs lines 43-57); anything else maps
to Idle. -/
def ProgressPhase.fromI32 (v : Int) : ProgressPhase :=
  if v = 1 then .schema
  else if v = 2 then .data
  else if v = 3 then .sequences
  else if v = 4 then .indexes
  else if v = 5 then .constraints
  else if v = 6 then .verify
  else if v = 7 then .finalizing
  else if v = 8 then .complete
  else if v = 9 then .failed
  else .idle

/-- ProgressPhase::as_str (progress.rs lines 60-73). -/
def ProgressPhase.asStr : ProgressPhase → String
  | .idle => "idle"
  | .schema => "schema"
  | .data => "data"
  | .sequences => "sequences"
  | .indexes => "indexes"
  | .constraints => "constraints"
  | .verify => "verify"
  | .finalizing => "finalizing"
  | .complete => "complete"
  | .failed => "failed"

/-- The shared-memory OperationProgress struct (progress.rs lines
108-159).  Strings (operation_id, current_table, error_message) are
byte lists (null-terminated fixed arrays in the source, truncated at
63/127/255 bytes); f32 fields are rationals. -/
structure OperationProgress where
  active : Bool
  operation_type : Int
  operation_id : List Nat
  phase : Int
  overall_percent : ℚ
  tables_completed : Int
  tables_total : Int
  bytes_processed : Int
  bytes_total : Int
  rows_processed : Int
  rows_total : Int
  throughput_bytes_sec : ℚ
  eta_seconds : Int
  current_table : List Nat
  error_message : List Nat
  started_at : Int
  work_queue_id : Int
deriving DecidableEq, Repr

/-- OperationProgress::default (progress.rs lines 161-183). -/
def OperationProgress.zero : OperationProgress :=
  { active := false, operation_type := 0, operation_id := [], phase := 0,
    overall_percent := 0, tables_completed := 0, tables_total := 0,
    bytes_processed := 0, bytes_total := 0, rows_processed := 0,
    rows_total := 0, throughput_bytes_sec := 0, eta_seconds := 0,
    current_table := [], error_message := [], started_at := 0,
    work_queue_id := 0 }

/-- OperationProgress::reset (progress.rs lines 192-194). -/
def OperationProgress.reset (_p : OperationProgress) : OperationProgress :=
  OperationProgress.zero

/-- OperationProgress::start (progress.rs lines 197-219): reset, then
activate for one job; `now` is the unix timestamp. -/
def OperationProgress.start (p : OperationProgress) (operation_type : Int)
    (operation_id : List Nat) (work_queue_id tables_total bytes_total rows_total : Int)
    (now : Int) : OperationProgress :=
  { p.reset with
    active := true, operation_type := operation_type,
    operation_id := operation_id.take 63, work_queue_id := work_queue_id,
    tables_total := tables_total, bytes_total := bytes_total,
    rows_total := rows_total, phase := ProgressPhase.schema.toI32,
    started_at := now }

/-- Rust `as i32` on a nonnegative-or-negative f64: truncation toward
zero. -/
def ratTrunc (x : ℚ) : Int :=
  if 0 ≤ x then Int.floor x else Int.ceil x

/-- Arguments of one OperationProgress::update call; `now` is the wall
clock read inside update. -/
structure UpdateArgs where
  now : Int
  phase : ProgressPhase
  tables_completed : Int
  bytes_processed : Int
  rows_processed : Int
  current_table : List Nat
deriving DecidableEq, Repr

/-- OperationProgress::update (progress.rs lines 222-258): set the
counters, recompute overall_percent by the bytes→rows→tables priority
(unchanged when all totals are ≤ 0), then recompute throughput and ETA
when time has passed and bytes were processed. -/
def OperationProgress.update (p : OperationProgress) (u : UpdateArgs) :
    OperationProgress :=
  let p1 := { p with
    phase := u.phase.toI32,
    tables_completed := u.tables_completed,
    bytes_processed := u.bytes_processed,
    rows_processed := u.rows_processed,
    current_table := u.current_table.take 127 }
  let p2 :=
    if 0 < p.bytes_total then
      { p1 with overall_percent :=
          (u.bytes_processed : ℚ) / (p.bytes_total : ℚ) * 100 }
    else if 0 < p.rows_total then
      { p1 with overall_percent :=
          (u.rows_processed : ℚ) / (p.rows_total : ℚ) * 100 }
    else if 0 < p.tables_total then
      { p1 with overall_percent :=
          (u.tables_completed : ℚ) / (p.tables_total : ℚ) * 100 }
    else p1
  let elapsed := u.now - p.started_at
  if 0 < elapsed ∧ 0 < u.bytes_processed then
    let thr : ℚ := (u.bytes_processed : ℚ) / (elapsed : ℚ)
    let p3 := { p2 with throughput_bytes_sec := thr }
    if 0 < thr then
      { p3 with eta_seconds :=
          ratTrunc (((p.bytes_total - u.bytes_processed : Int) : ℚ) / thr) }
    else p3
  else p2

/-- OperationProgress::complete (progress.rs lines 261-266). -/
def OperationProgress.complete (p : OperationProgress) : OperationProgress :=
  { p with phase := ProgressPhase.complete.toI32, overall_percent := 100,
           eta_seconds := 0, active := false }

/-- OperationProgress::fail (progress.rs lines 269-273); the message is
truncated at ERROR_MSG_LEN - 1 = 255 bytes. -/
def OperationProgress.fail (p : OperationProgress) (error : List Nat) :
    OperationProgress :=
  { p with phase := ProgressPhase.failed.toI32,
           error_message := error.take 255, active := false }

/-- The progress states reached from a start state by a sequence of
update calls (post-state of each call, in order). -/
def updateTrace (p : OperationProgress) (us : List UpdateArgs) :
    List OperationProgress :=
  (us.scanl OperationProgress.update p).tail

/-- SQL reader _steep_repl_get_progress_percent (progress.rs lines
367-374): the percent is visible while active or once phase is
Complete. -/
def getProgressPercent (p : OperationProgress) : Option ℚ :=
  if p.active || p.phase == ProgressPhase.complete.toI32 then
    some p.overall_percent
  else none

/-- SQL reader _steep_repl_get_progress_phase (progress.rs lines
379-386): visible while active or once phase is Complete or Failed. -/
def getProgressPhase (p : OperationProgress) : Option String :=
  if p.active || p.phase == ProgressPhase.complete.toI32
      || p.phase == ProgressPhase.failed.toI32 then
    some (ProgressPhase.fromI32 p.phase).asStr
  else none

/-- SQL reader _steep_repl_get_progress_error (progress.rs lines
420-432): the message is visible only in phase Failed and only when
non-empty. -/
def getProgressError (p : OperationProgress) : Option (List Nat) :=
  if p.phase == ProgressPhase.failed.toI32 then
    if p.error_message.isEmpty then none else some p.error_message
  else none

/-! Fingerprint engine (fingerprint_functions.rs). -/

/-- One information_schema.columns row as consumed by
compute_fingerprint: (column_name, data_type, column_default,
is_nullable), listed in ordinal_position order. -/
structure ColumnDef where
  column_name : String
  data_type : String
  column_default : Option String
  is_nullable : String
deriving DecidableEq, Repr

/-- The per-column serialization of compute_fingerprint
(fingerprint_functions.rs lines 14-17):
column_name || ':' || data_type || ':' || coalesce(column_default,
'NULL') || ':' || is_nullable. -/
def serializeColumn (c : ColumnDef) : String :=
  c.column_name ++ ":" ++ c.data_type ++ ":"
    ++ c.column_default.getD "NULL" ++ ":" ++ c.is_nullable

/-- string_agg(…, '|' ORDER BY ordinal_position): the columns joined in
ordinal order with '|'. -/
def serializeColumns (cols : List ColumnDef) : String :=
  String.intercalate "|" (cols.map serializeColumn)

/-- steep_repl.compute_fingerprint (fingerprint_functions.rs lines
12-21): the hex SHA-256 digest of the serialized column list, NULL when
the table has no columns (string_agg over zero rows is NULL).  The
digest primitive encode(sha256(…),'hex') is an external collaborator
and enters as the `hash` parameter; every property proved below holds
for an arbitrary (respectively arbitrary injective, i.e.
collision-free) hash. -/
def compute_fingerprint (hash : String → String) (cols : List ColumnDef) :
    Option String :=
  if cols.isEmpty then none else some (hash (serializeColumns cols))

/-! Merge/diff engine (merge.rs). -/

/-- steep_repl.overlap_category (merge.rs lines 37-42); `rowMatch` is the
SQL enum value 'match'. -/
inductive OverlapCategory where
  | rowMatch
  | conflict
  | localOnly
  | remoteOnly
deriving DecidableEq, Repr

/-- steep_repl.overlap_result (merge.rs lines 44-49): primary keys and
64-bit row hashes are modelled as Int. -/
structure OverlapRow where
  pk : Int
  category : OverlapCategory
  local_hash : Option Int
  remote_hash : Option Int
deriving DecidableEq, Repr

/-- Hash of the row with the given primary key in a (pk, row_hash)
stream, if present (first match). -/
def hashLookup (rows : List (Int × Int)) (k : Int) : Option Int :=
  (rows.find? (fun x => x.1 == k)).map (·.2)

/-- The CASE classification of one local row against the remote stream
(merge.rs lines 184-191): a matching remote pk with equal hash is
'match', with a differing hash 'conflict', and a local row with no
remote counterpart is 'local_only'. -/
def localJoinRow (remoteRows : List (Int × Int)) (lr : Int × Int) : OverlapRow :=
  match hashLookup remoteRows lr.1 with
  | some rh =>
      { pk := lr.1,
        category := if lr.2 == rh then .rowMatch else .conflict,
        local_hash := some lr.2, remote_hash := some rh }
  | none =>
      { pk := lr.1, category := .localOnly,
        local_hash := some lr.2, remote_hash := none }

/-- The output row for a remote row with no local counterpart
(l.pk_json IS NULL branch of the CASE). -/
def remoteOnlyRow (rr : Int × Int) : OverlapRow :=
  { pk := rr.1, category := .remoteOnly,
    local_hash := none, remote_hash := some rr.2 }

/-- steep_repl.compare_table_rows (merge.rs lines 63-202): the FULL OUTER
JOIN of the local and remote (pk, row_hash) streams on pk with the CASE
classification of lines 184-189.  With unique primary keys per side the
join is: every local row paired with its remote counterpart (or alone),
plus every remote row with no local counterpart. -/
def compare_table_rows (localRows remoteRows : List (Int × Int)) :
    List OverlapRow :=
  localRows.map (localJoinRow remoteRows)
  ++ (remoteRows.filter (fun rr => (hashLookup localRows rr.1).isNone)).map
      remoteOnlyRow

/-- Specification of the classification (spec §4.4 step 3), per primary
key: the rows the comparison must emit for key `k`. -/
def overlapSpecRows (localRows remoteRows : List (Int × Int)) (k : Int) :
    List OverlapRow :=
  match hashLookup localRows k, hashLookup remoteRows k with
  | some lh, some rh =>
      [{ pk := k, category := if lh == rh then .rowMatch else .conflict,
         local_hash := some lh, remote_hash := some rh }]
  | some lh, none =>
      [{ pk := k, category := .localOnly,
         local_hash := some lh, remote_hash := none }]
  | none, some rh =>
      [{ pk := k, category := .remoteOnly,
         local_hash := none, remote_hash := some rh }]
  | none, none => []

/-! Quiesce protocol (merge.rs lines 241-312). -/

/-- Observable outcome of steep_repl.quiesce_writes: the boolean return
value and whether the calling session still holds the table's advisory
lock when the call returns. -/
structure QuiesceOutcome where
  granted : Bool
  lockHeld : Bool
deriving DecidableEq, Repr

/-- The wait loop of quiesce_writes (merge.rs lines 264-287).
`writerCount` i is the count of other sessions holding a write lock on
the table observed at the i-th poll; `elapsedMs` i is
extract(epoch from clock_timestamp() - v_start_time) * 1000 at the i-th
poll.  The source loop is unbounded; `fuel` bounds the embedding and
`none` means the loop was still running after `fuel` polls. -/
def quiesceLoop (timeoutMs : Int) (writerCount : Nat → Nat)
    (elapsedMs : Nat → Int) : Nat → Nat → Option QuiesceOutcome
  | 0, _ => none
  | fuel + 1, i =>
    if writerCount i = 0 then some { granted := true, lockHeld := true }
    else if timeoutMs < elapsedMs i then some { granted := false, lockHeld := false }
    else quiesceLoop timeoutMs writerCount elapsedMs fuel (i + 1)

/-- steep_repl.quiesce_writes (merge.rs lines 241-292): try the advisory
lock (fails immediately when another session holds it), then poll until
no other session holds a write lock on the table, releasing the
advisory lock and returning false when the timeout elapses first. -/
def quiesce_writes (timeoutMs : Int) (lockFree : Bool)
    (writerCount : Nat → Nat) (elapsedMs : Nat → Int) (fuel : Nat) :
    Option QuiesceOutcome :=
  if lockFree then quiesceLoop timeoutMs writerCount elapsedMs fuel 0
  else some { granted := false, lockHeld := false }

/-- steep_repl.release_quiesce (merge.rs lines 298-309):
pg_advisory_unlock returns whether the lock was held, and afterwards the
session holds no lock. -/
def release_quiesce (lockHeld : Bool) : Bool × Bool :=
  (lockHeld, false)

/-! Merge strategies and conflict resolution. -/

/-- CHECK constraint merge_operations_strategy_check
(merge_audit_log.rs lines 57-59). -/
def merge_operations_strategy_check (s : String) : Bool :=
  s == "prefer-local" || s == "prefer-remote" || s == "last-modified"

/-- CHECK constraint on merge_audit_log.resolution
(merge_audit_log.rs line 158); node A is the local side. -/
def merge_audit_resolution_check (s : String) : Bool :=
  s == "kept_a" || s == "kept_b" || s == "skipped"

/-- The three merge strategies admitted by
merge_operations_strategy_check. -/
inductive MergeStrategy where
  | preferLocal
  | preferRemote
  | lastModified
deriving DecidableEq, Repr

/-- Recorded resolutions admitted by the merge_audit_log CHECK:
kept_a (local), kept_b (remote), skipped. -/
inductive MergeResolution where
  | keptLocal
  | keptRemote
  | skipped
deriving DecidableEq, Repr

/-- Modelled from the spec: the per-Conflict resolution step of the merge
worker.  The executing code (worker.rs execute_bidirectional_merge,
lines 844-873) is a placeholder (TODO T050) that performs no
resolution; only the strategy and resolution CHECK constraints exist in
src.  Spec §4.4 step 4 and §8: prefer-local always keeps the local row,
prefer-remote always keeps the remote row, last-modified keeps the row
with the larger caller-supplied modification timestamp and falls back
to the local row on exact ties. -/
def resolveConflict (strategy : MergeStrategy)
    (localModifiedAt remoteModifiedAt : Int) : MergeResolution :=
  match strategy with
  | .preferLocal => .keptLocal
  | .preferRemote => .keptRemote
  | .lastModified =>
      if localModifiedAt < remoteModifiedAt then .keptRemote else .keptLocal

/-! Basic lemmas about the queue embedding. -/

theorem claimUpdate_id (w now selId : Int) (s : WorkRow) :
    (claimUpdate w now selId s).id = s.id := by
  unfold claimUpdate; split <;> rfl

theorem rowOf_map (f : WorkRow → WorkRow) (hf : ∀ r, (f r).id = r.id)
    (q : WorkQueue) (id : Int) :
    rowOf (q.map f) id = (rowOf q id).map f := by
  induction q with
  | nil => rfl
  | cons a l ih =>
    by_cases h : a.id = id
    · have h1 : (a.id == id) = true := by simpa using h
      have h2 : ((f a).id == id) = true := by rw [hf a]; exact h1
      simp [rowOf, List.find?_cons_of_pos, h1, h2]
    · have h1 : (a.id == id) = false := by simpa using h
      have h2 : ((f a).id == id) = false := by rw [hf a]; exact h1
      simp only [rowOf, List.map_cons] at ih ⊢
      rw [List.find?_cons_of_neg _ (by simp [h2]), List.find?_cons_of_neg _ (by simp [h1])]
      exact ih

theorem rowOf_eq_some {q : WorkQueue} {id : Int} {r : WorkRow}
    (h : rowOf q id = some r) : r ∈ q ∧ r.id = id := by
  refine ⟨List.mem_of_find?_eq_some h, ?_⟩
  have := List.find?_some h
  simpa using this

theorem eq_of_mem_of_id_eq {q : WorkQueue} (hN : (q.map (·.id)).Nodup)
    {a b : WorkRow} (ha : a ∈ q) (hb : b ∈ q) (h : a.id = b.id) : a = b :=
  List.inj_on_of_nodup_map hN ha hb h

theorem rowOf_of_mem {q : WorkQueue} (hN : (q.map (·.id)).Nodup)
    {r : WorkRow} (hr : r ∈ q) : rowOf q r.id = some r := by
  induction q with
  | nil => cases hr
  | cons a l ih =>
    rcases List.mem_cons.mp hr with h | h
    · subst h
      simp [rowOf, List.find?_cons_of_pos]
    · have hna : a.id ∉ l.map (·.id) := (List.nodup_cons.mp (by simpa using hN)).1
      have hne : (a.id == r.id) = false := by
        apply beq_eq_false_iff_ne.mpr
        intro he
        exact hna (he ▸ List.mem_map_of_mem (·.id) h)
      unfold rowOf
      rw [List.find?_cons_of_neg _ (by simp [hne])]
      exact ih (List.nodup_cons.mp (by simpa using hN)).2 h

theorem selectOldest_mem : ∀ {l : List WorkRow} {r : WorkRow},
    selectOldest l = some r → r ∈ l := by
  intro l
  induction l with
  | nil => intro r h; cases h
  | cons a t ih =>
    intro r h
    unfold selectOldest at h
    cases hs : selectOldest t with
    | none => rw [hs] at h; dsimp only at h; cases h; exact List.mem_cons_self a t
    | some b =>
      rw [hs] at h
      dsimp only at h
      by_cases hlt : b.created_at < a.created_at
      · rw [if_pos hlt] at h
        cases h
        exact List.mem_cons_of_mem a (ih hs)
      · rw [if_neg hlt] at h
        cases h
        exact List.mem_cons_self a t

theorem claim_next_work_cases (w now : Int) (q : WorkQueue) :
    (claim_next_work w now q = (none, q))
    ∨ ∃ sel : WorkRow, sel ∈ q ∧ sel.status = .pending ∧
        claim_next_work w now q =
          (some (claimUpdate w now sel.id sel), q.map (claimUpdate w now sel.id)) := by
  unfold claim_next_work
  cases hs : selectOldest (q.filter (fun r => r.status == .pending)) with
  | none => exact Or.inl rfl
  | some sel =>
    refine Or.inr ⟨sel, ?_, ?_, rfl⟩
    · exact (List.mem_filter.mp (selectOldest_mem hs)).1
    · have := (List.mem_filter.mp (selectOldest_mem hs)).2
      simpa using this

theorem ids_map (f : WorkRow → WorkRow) (hf : ∀ r, (f r).id = r.id)
    (q : WorkQueue) : (q.map f).map (·.id) = q.map (·.id) := by
  rw [List.map_map]
  exact List.map_congr_left fun r _ => hf r

theorem applyOp_ids (op : QueueOp) (q : WorkQueue) :
    (applyOp op q).map (·.id) = q.map (·.id) := by
  cases op with
  | claim w now =>
    show (claim_next_work w now q).2.map (·.id) = q.map (·.id)
    rcases claim_next_work_cases w now q with h | ⟨sel, _, _, h⟩ <;> rw [h]
    exact ids_map _ (claimUpdate_id w now sel.id) q
  | complete id now =>
    exact ids_map _ (fun r => by split <;> rfl) q
  | fail id e now =>
    exact ids_map _ (fun r => by split <;> rfl) q
  | cancel id now =>
    exact ids_map _ (fun r => by split <;> rfl) q
  | recover alive now =>
    exact ids_map _ (fun r => by split <;> rfl) q

theorem applyOp_nodup (op : QueueOp) (q : WorkQueue)
    (hN : (q.map (·.id)).Nodup) : ((applyOp op q).map (·.id)).Nodup := by
  rw [applyOp_ids]; exact hN

theorem rowOf_map_step (f : WorkRow → WorkRow) (hfid : ∀ r, (f r).id = r.id)
    (q : WorkQueue) (id : Int) (r : WorkRow) (hr : rowOf q id = some r) :
    rowOf (q.map f) id = some (f r) := by
  rw [rowOf_map f hfid q id, hr]; rfl

theorem statusStepOk_refl (a : WorkStatus) : statusStepOk a a = true := by
  cases a <;> rfl

theorem statusStepOk_of_pending {b : WorkStatus}
    (h : statusStepOk .pending b = true) :
    b = .pending ∨ b = .running ∨ b = .cancelled := by
  cases b <;> simp_all [statusStepOk]

/-- Every API operation moves every row's status along the §4.1 state
machine (or leaves it in place). -/
theorem applyOp_step (op : QueueOp) (q : WorkQueue) (id : Int) (r : WorkRow)
    (hN : (q.map (·.id)).Nodup) (hr : rowOf q id = some r) :
    ∃ r2, rowOf (applyOp op q) id = some r2 ∧ r2.id = r.id ∧
      statusStepOk r.status r2.status = true := by
  cases op with
  | claim w now =>
    rcases claim_next_work_cases w now q with h | ⟨sel, hmem, hpend, h⟩
    · refine ⟨r, ?_, rfl, statusStepOk_refl _⟩
      show rowOf (claim_next_work w now q).2 id = some r
      rw [h]; exact hr
    · refine ⟨claimUpdate w now sel.id r, ?_, claimUpdate_id w now sel.id r, ?_⟩
      · show rowOf (claim_next_work w now q).2 id = _
        rw [h]
        exact rowOf_map_step _ (claimUpdate_id w now sel.id) q id r hr
      · by_cases hcase : r.id = sel.id
        · have : r = sel :=
            eq_of_mem_of_id_eq hN (rowOf_eq_some hr).1 hmem hcase
          subst this
          unfold claimUpdate
          rw [if_pos (by simp), hpend]
          rfl
        · unfold claimUpdate
          rw [if_neg (by simpa using hcase)]
          exact statusStepOk_refl _
  | complete cid now =>
    refine ⟨_, rowOf_map_step _ (fun s => by split <;> rfl) q id r hr, by split <;> rfl, ?_⟩
    by_cases hc : (r.id == cid && r.status == WorkStatus.running) = true
    · have hc2 := hc
      rw [Bool.and_eq_true] at hc2
      have hrun : r.status = .running := by simpa using hc2.2
      rw [if_pos hc, hrun]
      rfl
    · rw [if_neg hc]; exact statusStepOk_refl _
  | fail cid e now =>
    refine ⟨_, rowOf_map_step _ (fun s => by split <;> rfl) q id r hr, by split <;> rfl, ?_⟩
    by_cases hc : (r.id == cid && r.status == WorkStatus.running) = true
    · have hc2 := hc
      rw [Bool.and_eq_true] at hc2
      have hrun : r.status = .running := by simpa using hc2.2
      rw [if_pos hc, hrun]
      rfl
    · rw [if_neg hc]; exact statusStepOk_refl _
  | cancel cid now =>
    refine ⟨_, rowOf_map_step _ (fun s => by split <;> rfl) q id r hr, by split <;> rfl, ?_⟩
    by_cases hc : (r.id == cid
        && (r.status == WorkStatus.pending || r.status == WorkStatus.running)) = true
    · rw [if_pos hc]
      have hc2 := hc
      rw [Bool.and_eq_true, Bool.or_eq_true] at hc2
      rcases hc2.2 with h2 | h2
      · have : r.status = .pending := by simpa using h2
        rw [this]; rfl
      · have : r.status = .running := by simpa using h2
        rw [this]; rfl
    · rw [if_neg hc]; exact statusStepOk_refl _
  | recover alive now =>
    refine ⟨_, rowOf_map_step _ (fun s => by split <;> rfl) q id r hr, by split <;> rfl, ?_⟩
    by_cases hc : deadClaimant alive r = true
    · have hc2 := hc
      rw [deadClaimant, Bool.and_eq_true] at hc2
      have hrun : r.status = .running := by simpa using hc2.1
      rw [if_pos hc, hrun]
      rfl
    · rw [if_neg hc]; exact statusStepOk_refl _

/-- A row in a terminal status is left entirely unchanged by every API
operation. -/
theorem applyOp_terminal (op : QueueOp) (q : WorkQueue) (id : Int)
    (r : WorkRow) (hN : (q.map (·.id)).Nodup) (hr : rowOf q id = some r)
    (ht : terminalStatus r.status = true) :
    rowOf (applyOp op q) id = some r := by
  have hnp : r.status ≠ .pending := by
    intro h; rw [h] at ht; cases ht
  have hnr : r.status ≠ .running := by
    intro h; rw [h] at ht; cases ht
  cases op with
  | claim w now =>
    rcases claim_next_work_cases w now q with h | ⟨sel, hmem, hpend, h⟩
    · show rowOf (claim_next_work w now q).2 id = some r
      rw [h]; exact hr
    · show rowOf (claim_next_work w now q).2 id = some r
      rw [h, rowOf_map_step _ (claimUpdate_id w now sel.id) q id r hr]
      have hne : r.id ≠ sel.id := by
        intro he
        have : r = sel := eq_of_mem_of_id_eq hN (rowOf_eq_some hr).1 hmem he
        exact hnp (this ▸ hpend)
      unfold claimUpdate
      rw [if_neg (by simpa using hne)]
  | complete cid now =>
    show rowOf (complete_work_entry cid now q) id = some r
    unfold complete_work_entry
    rw [rowOf_map_step _ (fun s => by split <;> rfl) q id r hr]
    rw [if_neg (by simp [hnr])]
  | fail cid e now =>
    show rowOf (fail_work_entry cid e now q) id = some r
    unfold fail_work_entry
    rw [rowOf_map_step _ (fun s => by split <;> rfl) q id r hr]
    rw [if_neg (by simp [hnr])]
  | cancel cid now =>
    show rowOf (cancel_work_entry cid now q).2 id = some r
    unfold cancel_work_entry
    rw [rowOf_map_step _ (fun s => by split <;> rfl) q id r hr]
    rw [if_neg (by simp [hnr, hnp])]
  | recover alive now =>
    show rowOf (recover_abandoned_work alive now q).2 id = some r
    unfold recover_abandoned_work
    rw [rowOf_map_step _ (fun s => by split <;> rfl) q id r hr]
    rw [if_neg (by simp [deadClaimant, hnr])]

/-- Terminal rows persist unchanged through every sequence of API
operations. -/
theorem applyOps_terminal (ops : List QueueOp) (q : WorkQueue) (id : Int)
    (r : WorkRow) (hN : (q.map (·.id)).Nodup) (hr : rowOf q id = some r)
    (ht : terminalStatus r.status = true) :
    rowOf (applyOps ops q) id = some r := by
  induction ops generalizing q with
  | nil => exact hr
  | cons op rest ih =>
    exact ih (applyOp op q) (applyOp_nodup op q hN)
      (applyOp_terminal op q id r hN hr ht)

/-- A claim leaves the status of every id other than the selected one
untouched, and ids never become pending again. -/
theorem claim_statusOf_not_pending (w now : Int) (q : WorkQueue)
    (sel : WorkRow) (i : Int)
    (h : statusOf q i ≠ some .pending) :
    statusOf (q.map (claimUpdate w now sel.id)) i ≠ some .pending := by
  unfold statusOf
  rw [rowOf_map _ (claimUpdate_id w now sel.id) q i]
  cases hrow : rowOf q i with
  | none => simp
  | some r =>
    unfold statusOf at h
    rw [hrow] at h
    intro hcontra
    simp only [Option.map_map, Option.map_some] at hcontra
    have : (claimUpdate w now sel.id r).status = .pending := by
      injection hcontra
    unfold claimUpdate at this
    split at this
    · cases this
    · exact h (by simpa using congrArg some this)

/-- The successfully claimed entries of any claim sequence carry pairwise
distinct ids: no item is ever handed to two callers. -/
theorem claimMany_nodup_aux : ∀ (calls : List (Int × Int)) (q : WorkQueue),
    (q.map (·.id)).Nodup → ∀ bad : List Int, bad.Nodup →
    (∀ i ∈ bad, statusOf q i ≠ some .pending) →
    (bad ++ claimedIds (claimMany calls q).1).Nodup := by
  intro calls
  induction calls with
  | nil =>
    intro q hN bad hbad hcond
    simpa [claimMany, claimedIds] using hbad
  | cons c rest ih =>
    intro q hN bad hbad hcond
    have hcm : claimMany (c :: rest) q =
        ((claim_next_work c.1 c.2 q).1 ::
            (claimMany rest (claim_next_work c.1 c.2 q).2).1,
         (claimMany rest (claim_next_work c.1 c.2 q).2).2) := rfl
    rcases claim_next_work_cases c.1 c.2 q with h | ⟨sel, hmem, hpend, h⟩
    · rw [hcm, h]
      have : claimedIds (none :: (claimMany rest q).1) =
          claimedIds (claimMany rest q).1 := by simp [claimedIds]
      rw [this]
      exact ih q hN bad hbad hcond
    · rw [hcm, h]
      have hid : (claimUpdate c.1 c.2 sel.id sel).id = sel.id :=
        claimUpdate_id c.1 c.2 sel.id sel
      have hsel : statusOf q sel.id = some .pending := by
        unfold statusOf
        rw [rowOf_of_mem hN hmem]
        simp [hpend]
      have hnotbad : sel.id ∉ bad := fun hin => hcond sel.id hin hsel
      have hids : claimedIds (some (claimUpdate c.1 c.2 sel.id sel) ::
          (claimMany rest (q.map (claimUpdate c.1 c.2 sel.id))).1) =
          sel.id :: claimedIds (claimMany rest (q.map (claimUpdate c.1 c.2 sel.id))).1 := by
        simp [claimedIds, hid]
      rw [hids]
      have hN2 : ((q.map (claimUpdate c.1 c.2 sel.id)).map (·.id)).Nodup := by
        rw [ids_map _ (claimUpdate_id c.1 c.2 sel.id)]
        exact hN
      have hbad2 : (bad ++ [sel.id]).Nodup := by
        rw [List.nodup_append]
        exact ⟨hbad, List.nodup_singleton _, by simpa using hnotbad⟩
      have hcond2 : ∀ i ∈ bad ++ [sel.id],
          statusOf (q.map (claimUpdate c.1 c.2 sel.id)) i ≠ some .pending := by
        intro i hi
        rcases List.mem_append.mp hi with hi | hi
        · exact claim_statusOf_not_pending c.1 c.2 q sel i (hcond i hi)
        · have : i = sel.id := by simpa using hi
          subst this
          unfold statusOf
          rw [rowOf_map _ (claimUpdate_id c.1 c.2 sel.id) q sel.id,
              rowOf_of_mem hN hmem]
          simp [claimUpdate]
      have := ih (q.map (claimUpdate c.1 c.2 sel.id)) hN2 (bad ++ [sel.id]) hbad2 hcond2
      simpa [List.append_assoc] using this

/-- With unique ids and the row in a status other than 'running',
complete and fail leave the row untouched. -/
theorem complete_noop (id now : Int) (q : WorkQueue) (r : WorkRow)
    (hr : rowOf q id = some r) (hnr : r.status ≠ .running) :
    rowOf (complete_work_entry id now q) id = some r := by
  unfold complete_work_entry
  rw [rowOf_map_step _ (fun s => by split <;> rfl) q id r hr]
  rw [if_neg (by simp [hnr])]

theorem fail_noop (id : Int) (e : String) (now : Int) (q : WorkQueue)
    (r : WorkRow) (hr : rowOf q id = some r) (hnr : r.status ≠ .running) :
    rowOf (fail_work_entry id e now q) id = some r := by
  unfold fail_work_entry
  rw [rowOf_map_step _ (fun s => by split <;> rfl) q id r hr]
  rw [if_neg (by simp [hnr])]

theorem cancel_noop (id now : Int) (q : WorkQueue) (r : WorkRow)
    (hr : rowOf q id = some r) (hnp : r.status ≠ .pending)
    (hnr : r.status ≠ .running) :
    rowOf (cancel_work_entry id now q).2 id = some r := by
  unfold cancel_work_entry
  rw [rowOf_map_step _ (fun s => by split <;> rfl) q id r hr]
  rw [if_neg (by simp [hnp, hnr])]

/-- cancel_work_entry reports false (no row updated) when the row is
neither pending nor running. -/
theorem cancel_flag_false (id now : Int) (q : WorkQueue) (r : WorkRow)
    (hN : (q.map (·.id)).Nodup) (hr : rowOf q id = some r)
    (hnp : r.status ≠ .pending) (hnr : r.status ≠ .running) :
    (cancel_work_entry id now q).1 = false := by
  have hfil : q.filter
      (fun s => s.id == id && (s.status == .pending || s.status == .running)) = [] := by
    rw [List.filter_eq_nil_iff]
    intro s hs
    by_cases hsid : s.id = id
    · have : s = r :=
        eq_of_mem_of_id_eq hN hs (rowOf_eq_some hr).1 (hsid.trans (rowOf_eq_some hr).2.symm)
      subst this
      simp [hnp, hnr]
    · simp [hsid]
  show (!(q.filter _).isEmpty) = false
  rw [hfil]
  rfl

/-- Starting from Pending, a row can only reach Complete through a state
in which it was Running. -/
theorem pending_to_complete (ops : List QueueOp) (q : WorkQueue) (id : Int)
    (hN : (q.map (·.id)).Nodup) (hp : statusOf q id = some .pending)
    (hc : statusOf (applyOps ops q) id = some .complete) :
    ∃ n, statusOf (applyOps (ops.take n) q) id = some .running := by
  induction ops generalizing q with
  | nil =>
    rw [show applyOps [] q = q from rfl, hp] at hc
    cases hc
  | cons op rest ih =>
    obtain ⟨r, hr, hrs⟩ : ∃ r, rowOf q id = some r ∧ r.status = .pending := by
      unfold statusOf at hp
      cases hrow : rowOf q id with
      | none => rw [hrow] at hp; cases hp
      | some r =>
        rw [hrow] at hp
        exact ⟨r, rfl, by injection hp⟩
    obtain ⟨r2, h2, hid2, hstep⟩ := applyOp_step op q id r hN hr
    rw [hrs] at hstep
    have hq' : applyOps (op :: rest) q = applyOps rest (applyOp op q) := rfl
    rcases statusStepOk_of_pending hstep with hps | hps | hps
    · obtain ⟨n, hn⟩ := ih (applyOp op q) (applyOp_nodup op q hN)
        (by unfold statusOf; rw [h2]; simp [hps])
        (by rw [hq'] at hc; exact hc)
      refine ⟨n + 1, ?_⟩
      have : applyOps ((op :: rest).take (n + 1)) q =
          applyOps (rest.take n) (applyOp op q) := rfl
      rw [this]
      exact hn
    · refine ⟨1, ?_⟩
      have : applyOps ((op :: rest).take 1) q = applyOp op q := rfl
      rw [this]
      unfold statusOf
      rw [h2]
      simp [hps]
    · exfalso
      have hterm : terminalStatus r2.status = true := by rw [hps]; rfl
      have hpersist := applyOps_terminal rest (applyOp op q) id r2
        (applyOp_nodup op q hN) h2 hterm
      rw [hq'] at hc
      unfold statusOf at hc
      rw [hpersist] at hc
      simp [hps] at hc

/-- C1: for every queue (unique ids) and every number of concurrent
callers, the claim operation (claim_next_work / steep_repl.claim_work)
never returns the same pending item to two callers - across any
interleaving of atomic claims the successfully claimed ids are pairwise
distinct - and a successful claim returns a previously pending row
transitioned to Running with worker_pid set to the caller and
started_at set to the claim time, persisted in the queue. -/
theorem claim_next_work_no_double_claim
    (q : WorkQueue) (hN : (q.map (·.id)).Nodup) (w now : Int)
    (calls : List (Int × Int)) :
    (∀ e, (claim_next_work w now q).1 = some e →
       e.status = .running ∧ e.worker_pid = some w ∧ e.started_at = some now ∧
       ∃ pre, rowOf q e.id = some pre ∧ pre.status = .pending ∧
         e = { pre with
               status := .running, worker_pid := some w,
               started_at := some now } ∧
         rowOf (claim_next_work w now q).2 e.id = some e)
    ∧ (claimedIds (claimMany calls q).1).Nodup := by
  constructor
  · intro e he
    rcases claim_next_work_cases w now q with h | ⟨sel, hmem, hpend, h⟩
    · rw [h] at he; cases he
    · rw [h] at he
      have he2 : e = claimUpdate w now sel.id sel := by
        injection he with h2
        exact h2.symm
      have hupd : claimUpdate w now sel.id sel =
          { sel with
            status := .running, worker_pid := some w,
            started_at := some now } := by
        unfold claimUpdate
        rw [if_pos (by simp)]
      subst he2
      refine ⟨by rw [hupd], by rw [hupd], by rw [hupd], sel, ?_, hpend, hupd, ?_⟩
      · rw [claimUpdate_id]
        exact rowOf_of_mem hN hmem
      · rw [h, claimUpdate_id]
        exact rowOf_map_step _ (claimUpdate_id w now sel.id) q sel.id sel
          (rowOf_of_mem hN hmem)
  · have := claimMany_nodup_aux calls q hN [] List.nodup_nil
      (by intro i hi; cases hi)
    simpa using this

/-- C1 witness: two concurrent claimers on a two-item queue claim
distinct items. -/
theorem claim_next_work_no_double_claim_witness :
    (claimedIds (claimMany [(10, 100), (11, 101)]
      [⟨1, .snapshotGenerate, some "s", none, [], .pending, none, none, 0, none, none⟩,
       ⟨2, .snapshotGenerate, some "t", none, [], .pending, none, none, 1, none, none⟩]).1).Nodup :=
  (claim_next_work_no_double_claim
    [⟨1, .snapshotGenerate, some "s", none, [], .pending, none, none, 0, none, none⟩,
     ⟨2, .snapshotGenerate, some "t", none, [], .pending, none, none, 1, none, none⟩]
    (by decide) 10 100 [(10, 100), (11, 101)]).2

/-- C2: complete and fail change a row only from Running, cancel only
from Pending or Running; in any other status the row is left unchanged
(and cancel reports false); a terminal row is never changed by any API
operation; and no sequence of API operations takes a row from Pending
to Complete without passing through Running. -/
theorem work_queue_state_machine
    (q : WorkQueue) (id now : Int) (err : String) (r : WorkRow)
    (hN : (q.map (·.id)).Nodup) (hr : rowOf q id = some r) :
    (r.status ≠ .running →
        rowOf (complete_work_entry id now q) id = some r ∧
        rowOf (fail_work_entry id err now q) id = some r)
    ∧ (r.status = .running →
        rowOf (complete_work_entry id now q) id =
          some { r with status := .complete, completed_at := some now } ∧
        rowOf (fail_work_entry id err now q) id =
          some { r with
                 status := .failed, completed_at := some now,
                 error_message := some err })
    ∧ (r.status ≠ .pending → r.status ≠ .running →
        rowOf (cancel_work_entry id now q).2 id = some r ∧
        (cancel_work_entry id now q).1 = false)
    ∧ (terminalStatus r.status = true →
        ∀ op : QueueOp, rowOf (applyOp op q) id = some r)
    ∧ (∀ ops : List QueueOp, r.status = .pending →
        statusOf (applyOps ops q) id = some .complete →
        ∃ n, statusOf (applyOps (ops.take n) q) id = some .running) := by
  refine ⟨?_, ?_, ?_, ?_, ?_⟩
  · intro h
    exact ⟨complete_noop id now q r hr h, fail_noop id err now q r hr h⟩
  · intro h
    constructor
    · unfold complete_work_entry
      rw [rowOf_map_step _ (fun s => by split <;> rfl) q id r hr]
      rw [if_pos (by simp [(rowOf_eq_some hr).2, h])]
    · unfold fail_work_entry
      rw [rowOf_map_step _ (fun s => by split <;> rfl) q id r hr]
      rw [if_pos (by simp [(rowOf_eq_some hr).2, h])]
  · intro h1 h2
    exact ⟨cancel_noop id now q r hr h1 h2,
           cancel_flag_false id now q r hN hr h1 h2⟩
  · intro ht op
    exact applyOp_terminal op q id r hN hr ht
  · intro ops hp hc
    exact pending_to_complete ops q id hN
      (by unfold statusOf; rw [hr]; simp [hp]) hc

/-- C2 witness: completing a running single-row queue transitions the
row to Complete with completed_at set. -/
theorem work_queue_state_machine_witness :
    rowOf (complete_work_entry 1 50
      [⟨1, .snapshotGenerate, some "s", none, [], .running, some 7, none, 0, some 10, none⟩]) 1 =
      some ⟨1, .snapshotGenerate, some "s", none, [], .complete, some 7, none, 0, some 10, some 50⟩ :=
  ((work_queue_state_machine
    [⟨1, .snapshotGenerate, some "s", none, [], .running, some 7, none, 0, some 10, none⟩]
    1 50 "e"
    ⟨1, .snapshotGenerate, some "s", none, [], .running, some 7, none, 0, some 10, none⟩
    (by decide) rfl).2.1 rfl).1

/-- C3: on a queue with exactly one Running row whose claimant is dead
and all other rows bearing live claimants (or not running),
recover_abandoned_work returns a count of 1, transitions exactly the
dead-claimant row to Failed with the synthetic claimant-terminated
message containing the dead pid, and leaves every other row literally
unchanged. -/
theorem recover_abandoned_one_dead
    (alive : Int → Bool) (now : Int) (q₁ q₂ : List WorkRow) (r0 : WorkRow)
    (p : Int) (h0s : r0.status = .running) (h0p : r0.worker_pid = some p)
    (h0d : alive p = false)
    (hlive : ∀ r ∈ q₁ ++ q₂, deadClaimant alive r = false) :
    recover_abandoned_work alive now (q₁ ++ r0 :: q₂) =
      (1, q₁ ++ { r0 with
                  status := .failed, completed_at := some now,
                  error_message := some (recoverMsg p) } :: q₂)
    ∧ ∃ a b, recoverMsg p = a ++ toString p ++ b := by
  have hdead : deadClaimant alive r0 = true := by
    unfold deadClaimant
    rw [h0s, h0p]
    simp [h0d]
  have hl1 : ∀ r ∈ q₁, deadClaimant alive r = false := fun r hr =>
    hlive r (List.mem_append.mpr (Or.inl hr))
  have hl2 : ∀ r ∈ q₂, deadClaimant alive r = false := fun r hr =>
    hlive r (List.mem_append.mpr (Or.inr hr))
  constructor
  · unfold recover_abandoned_work
    have hf1 : q₁.filter (deadClaimant alive) = [] :=
      List.filter_eq_nil_iff.mpr (fun r hr => by simp [hl1 r hr])
    have hf2 : q₂.filter (deadClaimant alive) = [] :=
      List.filter_eq_nil_iff.mpr (fun r hr => by simp [hl2 r hr])
    have hm1 : q₁.map (fun r =>
        if deadClaimant alive r then
          { r with
            status := .failed, completed_at := some now,
            error_message := r.worker_pid.map recoverMsg }
        else r) = q₁ := by
      have h : q₁.map (fun r =>
          if deadClaimant alive r then
            { r with
              status := .failed, completed_at := some now,
              error_message := r.worker_pid.map recoverMsg }
          else r) = q₁.map id :=
        List.map_congr_left (fun r hr => by rw [if_neg (by simp [hl1 r hr])]; rfl)
      rw [h, List.map_id]
    have hm2 : q₂.map (fun r =>
        if deadClaimant alive r then
          { r with
            status := .failed, completed_at := some now,
            error_message := r.worker_pid.map recoverMsg }
        else r) = q₂ := by
      have h : q₂.map (fun r =>
          if deadClaimant alive r then
            { r with
              status := .failed, completed_at := some now,
              error_message := r.worker_pid.map recoverMsg }
          else r) = q₂.map id :=
        List.map_congr_left (fun r hr => by rw [if_neg (by simp [hl2 r hr])]; rfl)
      rw [h, List.map_id]
    refine Prod.ext ?_ ?_
    · show ((((q₁ ++ r0 :: q₂).filter (deadClaimant alive)).length : Int)) = 1
      rw [List.filter_append, hf1, List.filter_cons_of_pos (by simpa using hdead), hf2]
      rfl
    · show (q₁ ++ r0 :: q₂).map _ = _
      rw [List.map_append, List.map_cons, hm1, hm2, if_pos hdead, h0p]
      rfl
  · exact ⟨"Worker process terminated unexpectedly (PID ", ")", rfl⟩

/-- C3 witness: a queue with one dead-claimant running row (pid 9) and
one live-claimant running row (pid 2). -/
theorem recover_abandoned_one_dead_witness :
    recover_abandoned_work (fun x => x == 2) 5
      ([⟨2, .snapshotGenerate, some "a", none, [], .running, some 2, none, 0, some 1, none⟩]
        ++ ⟨1, .snapshotGenerate, some "b", none, [], .running, some 9, none, 0, some 1, none⟩ :: []) =
      (1, [⟨2, .snapshotGenerate, some "a", none, [], .running, some 2, none, 0, some 1, none⟩]
        ++ ⟨1, .snapshotGenerate, some "b", none, [], .failed, some 9,
             some (recoverMsg 9), 0, some 1, some 5⟩ :: []) :=
  (recover_abandoned_one_dead (fun x => x == 2) 5
    [⟨2, .snapshotGenerate, some "a", none, [], .running, some 2, none, 0, some 1, none⟩] []
    ⟨1, .snapshotGenerate, some "b", none, [], .running, some 9, none, 0, some 1, none⟩
    9 rfl rfl rfl (by decide)).1

/-! Progress monitor lemmas. -/

theorem scanl_head {α β : Type} (f : β → α → β) (b : β) (l : List α) :
    List.scanl f b l = b :: (List.scanl f b l).tail := by
  cases l <;> simp [List.scanl]

theorem updateTrace_cons (p : OperationProgress) (u : UpdateArgs)
    (us : List UpdateArgs) :
    updateTrace p (u :: us) = (p.update u) :: updateTrace (p.update u) us := by
  cases us <;> rfl

theorem update_bytes_total (p : OperationProgress) (u : UpdateArgs) :
    (p.update u).bytes_total = p.bytes_total := by
  unfold OperationProgress.update
  dsimp only
  split_ifs <;> rfl

theorem update_percent (p : OperationProgress) (u : UpdateArgs)
    (hT : 0 < p.bytes_total) :
    (p.update u).overall_percent =
      (u.bytes_processed : ℚ) / (p.bytes_total : ℚ) * 100 := by
  unfold OperationProgress.update
  dsimp only
  rw [if_pos hT]
  split_ifs <;> rfl

theorem updateTrace_percent (us : List UpdateArgs) :
    ∀ p : OperationProgress, 0 < p.bytes_total →
    (updateTrace p us).map (·.overall_percent) =
      us.map (fun u => (u.bytes_processed : ℚ) / (p.bytes_total : ℚ) * 100) := by
  induction us with
  | nil => intro p hT; rfl
  | cons u rest ih =>
    intro p hT
    rw [updateTrace_cons, List.map_cons, update_percent p u hT,
        ih (p.update u) (by rw [update_bytes_total]; exact hT),
        update_bytes_total]
    rfl

/-- C4: starting from any progress state with a fixed positive
bytes_total, the overall_percent values produced by a sequence of
update calls with monotonically non-decreasing bytes_processed are
monotonically non-decreasing, and complete() sets overall_percent to
exactly 100 from any prior state. -/
theorem progress_percent_monotone
    (p : OperationProgress) (hT : 0 < p.bytes_total) (us : List UpdateArgs)
    (hmono : List.Chain' (fun a b => a.bytes_processed ≤ b.bytes_processed) us) :
    List.Chain' (· ≤ ·) ((updateTrace p us).map (·.overall_percent))
    ∧ ∀ q : OperationProgress, (OperationProgress.complete q).overall_percent = 100 := by
  constructor
  · rw [updateTrace_percent us p hT, List.chain'_map]
    refine hmono.imp ?_
    intro a b hab
    have hTQ : (0 : ℚ) < (p.bytes_total : ℚ) := by exact_mod_cast hT
    have hcast : (a.bytes_processed : ℚ) ≤ (b.bytes_processed : ℚ) := by
      exact_mod_cast hab
    exact mul_le_mul_of_nonneg_right ((div_le_div_iff_of_pos_right hTQ).mpr hcast)
      (by norm_num)
  · intro q
    rfl

/-- C4 witness: two updates (10 then 60 of 100 bytes) on a freshly
started record yield non-decreasing percents. -/
theorem progress_percent_monotone_witness :
    List.Chain' (· ≤ ·) ((updateTrace
      (OperationProgress.zero.start 1 [] 7 2 100 0 0)
      [⟨5, .data, 0, 10, 0, []⟩, ⟨6, .data, 1, 60, 0, []⟩]).map
        (·.overall_percent)) :=
  (progress_percent_monotone (OperationProgress.zero.start 1 [] 7 2 100 0 0)
    (by decide)
    [⟨5, .data, 0, 10, 0, []⟩, ⟨6, .data, 1, 60, 0, []⟩]
    (List.chain'_cons.mpr ⟨by norm_num, List.chain'_singleton _⟩)).1

/-- C10 counterexample: after fail with an empty message, the stored
error_message is empty, but the error reader returns NULL rather than
the stored message. -/
theorem progress_fail_empty_error_counterexample :
    (OperationProgress.zero.fail []).error_message = []
    ∧ getProgressError (OperationProgress.zero.fail []) = none
    ∧ getProgressError (OperationProgress.zero.fail []) ≠
        some (OperationProgress.zero.fail []).error_message :=
  ⟨rfl, rfl, by decide⟩

/-- C10 (amended): after fail(error) the percent reader returns NULL
(the slot is inactive and the phase is Failed, not Complete), the phase
reader returns "failed", the slot is inactive, and - when the failure
message is non-empty - the error reader returns the stored (truncated)
message. -/
theorem progress_fail_readers
    (p : OperationProgress) (e : List Nat) (he : e ≠ []) :
    getProgressPercent (p.fail e) = none
    ∧ getProgressPhase (p.fail e) = some "failed"
    ∧ (p.fail e).active = false
    ∧ getProgressError (p.fail e) = some (List.take 255 e) := by
  refine ⟨?_, ?_, rfl, ?_⟩
  · simp [getProgressPercent, OperationProgress.fail, ProgressPhase.toI32]
  · simp [getProgressPhase, OperationProgress.fail, ProgressPhase.toI32,
          ProgressPhase.fromI32, ProgressPhase.asStr]
  · cases e with
    | nil => exact absurd rfl he
    | cons a l =>
      simp [getProgressError, OperationProgress.fail, ProgressPhase.toI32]

/-- C10 witness: failing with a one-byte message. -/
theorem progress_fail_readers_witness :
    getProgressPercent (OperationProgress.zero.fail [120]) = none
    ∧ getProgressPhase (OperationProgress.zero.fail [120]) = some "failed"
    ∧ getProgressError (OperationProgress.zero.fail [120]) =
        some (List.take 255 [120]) :=
  ⟨(progress_fail_readers OperationProgress.zero [120] (by decide)).1,
   (progress_fail_readers OperationProgress.zero [120] (by decide)).2.1,
   (progress_fail_readers OperationProgress.zero [120] (by decide)).2.2.2⟩

/-! Fingerprint engine theorems. -/

/-- C5 counterexample: a column with no default and a column whose
default expression is the literal text 'NULL' serialize identically
(coalesce(column_default, 'NULL') conflates them), so the two distinct
column lists hash to the same digest under any digest function. -/
theorem compute_fingerprint_null_default_collision :
    serializeColumns [⟨"a", "integer", none, "YES"⟩] =
      serializeColumns [⟨"a", "integer", some "NULL", "YES"⟩]
    ∧ ([⟨"a", "integer", none, "YES"⟩] : List ColumnDef) ≠
        [⟨"a", "integer", some "NULL", "YES"⟩]
    ∧ compute_fingerprint id [⟨"a", "integer", none, "YES"⟩] =
        compute_fingerprint id [⟨"a", "integer", some "NULL", "YES"⟩] :=
  ⟨rfl, by decide, rfl⟩

/-- C5 (amended): for a collision-free digest, two non-empty column
lists receive the same fingerprint exactly when their serialized column
strings are equal; identical (name, type, default, nullable) lists in
ordinal order therefore always give identical digests (and a repeated
call on an unchanged table returns the identical digest), but a
difference that does not change the serialization - such as NULL
default versus the literal default expression 'NULL' - does not change
the digest. -/
theorem compute_fingerprint_iff (hash : String → String)
    (hinj : Function.Injective hash) (c1 c2 : List ColumnDef)
    (h1 : c1 ≠ []) (h2 : c2 ≠ []) :
    compute_fingerprint hash c1 = compute_fingerprint hash c2 ↔
      serializeColumns c1 = serializeColumns c2 := by
  unfold compute_fingerprint
  rw [if_neg (by simp [h1]), if_neg (by simp [h2])]
  constructor
  · intro h
    refine hinj ?_
    injection h
  · intro h
    rw [h]

/-- C5 witness: with the (injective) identity digest, two tables with
different columns have different fingerprints exactly because their
serializations differ. -/
theorem compute_fingerprint_iff_witness :
    compute_fingerprint id [⟨"a", "integer", none, "YES"⟩] =
        compute_fingerprint id [⟨"b", "text", none, "NO"⟩] ↔
      serializeColumns [⟨"a", "integer", none, "YES"⟩] =
        serializeColumns [⟨"b", "text", none, "NO"⟩] :=
  compute_fingerprint_iff id (fun _ _ h => h)
    [⟨"a", "integer", none, "YES"⟩] [⟨"b", "text", none, "NO"⟩]
    (by decide) (by decide)

/-! Merge comparison lemmas. -/

theorem hashLookup_cons (a : Int × Int) (l : List (Int × Int)) (k : Int) :
    hashLookup (a :: l) k = if a.1 = k then some a.2 else hashLookup l k := by
  unfold hashLookup
  by_cases h : a.1 = k
  · rw [List.find?_cons_of_pos _ (by simpa using h), if_pos h]
    rfl
  · rw [List.find?_cons_of_neg _ (by simpa using h), if_neg h]

theorem localJoinRow_pk (R : List (Int × Int)) (lr : Int × Int) :
    (localJoinRow R lr).pk = lr.1 := by
  unfold localJoinRow
  cases hashLookup R lr.1 <;> rfl

theorem local_filter_nil (R : List (Int × Int)) (k : Int) :
    ∀ L : List (Int × Int), k ∉ L.map Prod.fst →
    (L.map (localJoinRow R)).filter (fun e => e.pk == k) = [] := by
  intro L
  induction L with
  | nil => intro _; rfl
  | cons a t ih =>
    intro hk
    simp only [List.map_cons, List.mem_cons, not_or] at hk
    obtain ⟨hak, htk⟩ := hk
    rw [List.map_cons,
        List.filter_cons_of_neg (by
          simp only [localJoinRow_pk, beq_iff_eq]
          exact fun h => hak h.symm)]
    exact ih htk

theorem remote_filter_nil (L : List (Int × Int)) (k : Int) :
    ∀ R : List (Int × Int), k ∉ R.map Prod.fst →
    ((R.filter (fun rr => (hashLookup L rr.1).isNone)).map remoteOnlyRow).filter
      (fun e => e.pk == k) = [] := by
  intro R
  induction R with
  | nil => intro _; rfl
  | cons a t ih =>
    intro hk
    simp only [List.map_cons, List.mem_cons, not_or] at hk
    obtain ⟨hak, htk⟩ := hk
    cases hfa : (hashLookup L a.1).isNone with
    | false =>
      rw [List.filter_cons_of_neg (by simp [hfa])]
      exact ih htk
    | true =>
      rw [List.filter_cons_of_pos (by simp [hfa]), List.map_cons,
          List.filter_cons_of_neg (by
            simp only [remoteOnlyRow, beq_iff_eq]
            exact fun h => hak h.symm)]
      exact ih htk

theorem local_filter_spec (R : List (Int × Int)) :
    ∀ L : List (Int × Int), (L.map Prod.fst).Nodup → ∀ k : Int,
    (L.map (localJoinRow R)).filter (fun e => e.pk == k) =
    (match hashLookup L k with
     | some lh =>
       match hashLookup R k with
       | some rh => [⟨k, if lh == rh then .rowMatch else .conflict, some lh, some rh⟩]
       | none => [⟨k, .localOnly, some lh, none⟩]
     | none => []) := by
  intro L
  induction L with
  | nil => intro _ k; rfl
  | cons a t ih =>
    intro hN k
    rw [List.map_cons] at hN
    obtain ⟨hnotin, hN2⟩ := List.nodup_cons.mp hN
    rw [List.map_cons, hashLookup_cons]
    by_cases hak : a.1 = k
    · subst hak
      rw [if_pos rfl,
          List.filter_cons_of_pos (by simp [localJoinRow_pk]),
          local_filter_nil R a.1 t hnotin]
      unfold localJoinRow
      cases hashLookup R a.1 <;> rfl
    · rw [if_neg hak,
          List.filter_cons_of_neg (by
            simp only [localJoinRow_pk, beq_iff_eq]
            exact hak)]
      exact ih hN2 k

theorem remote_filter_spec (L : List (Int × Int)) :
    ∀ R : List (Int × Int), (R.map Prod.fst).Nodup → ∀ k : Int,
    ((R.filter (fun rr => (hashLookup L rr.1).isNone)).map remoteOnlyRow).filter
      (fun e => e.pk == k) =
    (match hashLookup L k, hashLookup R k with
     | none, some rh => [⟨k, .remoteOnly, none, some rh⟩]
     | _, _ => []) := by
  intro R
  induction R with
  | nil =>
    intro _ k
    cases hashLookup L k <;> rfl
  | cons a t ih =>
    intro hN k
    rw [List.map_cons] at hN
    obtain ⟨hnotin, hN2⟩ := List.nodup_cons.mp hN
    rw [hashLookup_cons]
    by_cases hak : a.1 = k
    · subst hak
      rw [if_pos rfl]
      cases hLa : hashLookup L a.1 with
      | some lh =>
        rw [List.filter_cons_of_neg (by simp [hLa]),
            remote_filter_nil L a.1 t hnotin]
      | none =>
        rw [List.filter_cons_of_pos (by simp [hLa]), List.map_cons,
            List.filter_cons_of_pos (by simp [remoteOnlyRow]),
            remote_filter_nil L a.1 t hnotin]
        rfl
    · rw [if_neg hak]
      cases hfa : (hashLookup L a.1).isNone with
      | false =>
        rw [List.filter_cons_of_neg (by simp [hfa])]
        exact ih hN2 k
      | true =>
        rw [List.filter_cons_of_pos (by simp [hfa]), List.map_cons,
            List.filter_cons_of_neg (by
              simp only [remoteOnlyRow, beq_iff_eq]
              exact hak)]
        exact ih hN2 k

/-- C6: compare_table_rows realizes the full outer join on primary key:
for every key, the rows emitted are exactly those of the specification -
Match when both sides carry the key with equal hashes, Conflict when
the hashes differ, LocalOnly / RemoteOnly when only one side carries it,
and nothing otherwise; in particular, on local rows
{(1,a),(2,b)} and remote rows {(2,b),(3,c)} (hashes a=10, b=20, c=30)
it yields exactly one Match (key 2), one LocalOnly (key 1), one
RemoteOnly (key 3), and zero Conflicts. -/
theorem compare_table_rows_classification
    (localRows remoteRows : List (Int × Int))
    (hl : (localRows.map Prod.fst).Nodup) (hr : (remoteRows.map Prod.fst).Nodup)
    (k : Int) :
    ((compare_table_rows localRows remoteRows).filter (fun e => e.pk == k) =
      overlapSpecRows localRows remoteRows k)
    ∧ ((compare_table_rows [(1, 10), (2, 20)] [(2, 20), (3, 30)]).filter
        (fun e => e.category == OverlapCategory.rowMatch) =
        [⟨2, .rowMatch, some 20, some 20⟩])
    ∧ ((compare_table_rows [(1, 10), (2, 20)] [(2, 20), (3, 30)]).filter
        (fun e => e.category == OverlapCategory.conflict) = [])
    ∧ ((compare_table_rows [(1, 10), (2, 20)] [(2, 20), (3, 30)]).filter
        (fun e => e.category == OverlapCategory.localOnly) =
        [⟨1, .localOnly, some 10, none⟩])
    ∧ ((compare_table_rows [(1, 10), (2, 20)] [(2, 20), (3, 30)]).filter
        (fun e => e.category == OverlapCategory.remoteOnly) =
        [⟨3, .remoteOnly, none, some 30⟩]) := by
  refine ⟨?_, by decide, by decide, by decide, by decide⟩
  unfold compare_table_rows overlapSpecRows
  rw [List.filter_append, local_filter_spec remoteRows localRows hl k,
      remote_filter_spec localRows remoteRows hr k]
  cases hashLookup localRows k <;> cases hashLookup remoteRows k <;> rfl

/-- C6 witness: the classification at key 2 of the concrete example. -/
theorem compare_table_rows_classification_witness :
    (compare_table_rows [(1, 10), (2, 20)] [(2, 20), (3, 30)]).filter
      (fun e => e.pk == (2 : Int)) =
      overlapSpecRows [(1, 10), (2, 20)] [(2, 20), (3, 30)] 2 :=
  (compare_table_rows_classification [(1, 10), (2, 20)] [(2, 20), (3, 30)]
    (by decide) (by decide) 2).1

/-- C7: under prefer-local a Conflict always resolves to KeptLocal,
under prefer-remote always to KeptRemote, and under last-modified to
the row with the larger modification timestamp, falling back to
KeptLocal on exact ties; the three strategies and the recorded
resolutions are exactly those admitted by the CHECK constraints of
merge_operations and merge_audit_log. -/
theorem merge_strategy_resolution (lts rts : Int) :
    resolveConflict .preferLocal lts rts = .keptLocal
    ∧ resolveConflict .preferRemote lts rts = .keptRemote
    ∧ (rts < lts → resolveConflict .lastModified lts rts = .keptLocal)
    ∧ (lts < rts → resolveConflict .lastModified lts rts = .keptRemote)
    ∧ (lts = rts → resolveConflict .lastModified lts rts = .keptLocal)
    ∧ merge_operations_strategy_check "prefer-local" = true
    ∧ merge_operations_strategy_check "prefer-remote" = true
    ∧ merge_operations_strategy_check "last-modified" = true
    ∧ merge_audit_resolution_check "kept_a" = true
    ∧ merge_audit_resolution_check "kept_b" = true := by
  refine ⟨rfl, rfl, ?_, ?_, ?_, by decide, by decide, by decide, by decide,
    by decide⟩
  · intro h
    unfold resolveConflict
    rw [if_neg (by omega)]
  · intro h
    unfold resolveConflict
    rw [if_pos h]
  · intro h
    unfold resolveConflict
    rw [if_neg (by omega)]

/-- C7 witness: last-modified at a tie, a larger remote timestamp, and a
larger local timestamp. -/
theorem merge_strategy_resolution_witness :
    resolveConflict .lastModified 3 3 = .keptLocal
    ∧ resolveConflict .lastModified 2 7 = .keptRemote
    ∧ resolveConflict .lastModified 7 2 = .keptLocal :=
  ⟨(merge_strategy_resolution 3 3).2.2.2.2.1 rfl,
   (merge_strategy_resolution 2 7).2.2.2.1 (by norm_num),
   (merge_strategy_resolution 7 2).2.2.1 (by norm_num)⟩

/-- C8: quiesce_writes with timeout 0 while another session holds a
write lock on the table at every poll returns false with no advisory
lock left held by the caller - whether the advisory lock was
unavailable (immediate failure) or acquired and then released in the
timeout branch; it never reports success while writers are active.
elapsedMs 1 > 0 reflects that the second poll happens after a
pg_sleep(0.1). -/
theorem quiesce_timeout_zero
    (lockFree : Bool) (writerCount : Nat → Nat) (elapsedMs : Nat → Int)
    (fuel : Nat) (hw : ∀ i, 0 < writerCount i) (he : 0 < elapsedMs 1)
    (hf : 2 ≤ fuel) :
    quiesce_writes 0 lockFree writerCount elapsedMs fuel =
      some { granted := false, lockHeld := false } := by
  obtain ⟨f, rfl⟩ : ∃ f, fuel = f + 2 := ⟨fuel - 2, by omega⟩
  cases lockFree with
  | false => rfl
  | true =>
    show quiesceLoop 0 writerCount elapsedMs (f + 2) 0 = _
    unfold quiesceLoop
    rw [if_neg (by have := hw 0; omega)]
    by_cases h0 : (0 : Int) < elapsedMs 0
    · rw [if_pos h0]
    · rw [if_neg h0]
      unfold quiesceLoop
      rw [if_neg (by have := hw (0 + 1); omega), if_pos (show (0 : Int) < elapsedMs (0 + 1) from he)]

/-- C8 witness: one persistent writer, a clock advancing 100ms per
poll, fuel 2. -/
theorem quiesce_timeout_zero_witness :
    quiesce_writes 0 true (fun _ => 1) (fun i => (i : Int) * 100) 2 =
      some { granted := false, lockHeld := false } :=
  quiesce_timeout_zero true (fun _ => 1) (fun i => (i : Int) * 100) 2
    (fun _ => Nat.one_pos) (by norm_num) (le_refl 2)

/-- C9 counterexample: a raw row populating BOTH snapshot_id and
merge_id passes both CHECK constraints, so it is not rejected at
creation - the claimed rejection of both-kinds items does not hold at
the constraint level (such rows are merely unreachable through the
enqueue functions). -/
theorem work_queue_both_ids_accepted :
    insertWorkRow
      ⟨1, .snapshotGenerate, some "snap", some "m1", [], .pending, none,
       none, 0, none, none⟩ [] =
      some [⟨1, .snapshotGenerate, some "snap", some "m1", [], .pending,
            none, none, 0, none, none⟩]
    ∧ exactlyOneSubjectId
      ⟨1, .snapshotGenerate, some "snap", some "m1", [], .pending, none,
       none, 0, none, none⟩ = false :=
  ⟨rfl, rfl⟩

/-- C9 (amended): every work item created through the enqueue functions
populates exactly one of snapshot_id / merge_id and starts Pending, and
the CHECK constraints reject inconsistent operation/parameter pairings
(a merge without merge_id, a snapshot operation without snapshot_id);
rejection of rows populating both kinds, however, is not enforced by
the constraints (see the counterexample), such rows are only
unreachable via the enqueue API. -/
theorem work_queue_param_exclusivity
    (sid output_path compression input_path mergeId peer_connstr strategy : String)
    (tables : List String) (parallel newId now : Int) (verify dry_run : Bool)
    (q : WorkQueue) (r : WorkRow) :
    (∀ i q2, queue_snapshot_generate sid output_path compression parallel
        newId now q = some (i, q2) →
      ∃ row, q2 = q ++ [row] ∧ exactlyOneSubjectId row = true ∧
        row.status = .pending)
    ∧ (∀ i q2, queue_snapshot_apply sid input_path parallel verify
        newId now q = some (i, q2) →
      ∃ row, q2 = q ++ [row] ∧ exactlyOneSubjectId row = true ∧
        row.status = .pending)
    ∧ (∀ i q2, queue_bidirectional_merge mergeId peer_connstr tables strategy
        dry_run newId now q = some (i, q2) →
      ∃ row, q2 = q ++ [row] ∧ exactlyOneSubjectId row = true ∧
        row.status = .pending)
    ∧ (r.operation = .bidirectionalMerge → r.merge_id = none →
        insertWorkRow r q = none)
    ∧ ((r.operation = .snapshotGenerate ∨ r.operation = .snapshotApply) →
        r.snapshot_id = none → insertWorkRow r q = none) := by
  refine ⟨?_, ?_, ?_, ?_, ?_⟩
  · intro i q2 h
    injection h with h2
    injection h2 with hi hq
    exact ⟨_, hq.symm, rfl, rfl⟩
  · intro i q2 h
    injection h with h2
    injection h2 with hi hq
    exact ⟨_, hq.symm, rfl, rfl⟩
  · intro i q2 h
    injection h with h2
    injection h2 with hi hq
    exact ⟨_, hq.symm, rfl, rfl⟩
  · intro hop hm
    unfold insertWorkRow
    rw [if_neg (by
      simp [work_queue_snapshot_required, work_queue_merge_required, hop, hm])]
  · intro hop hs
    unfold insertWorkRow
    rcases hop with hop | hop <;>
      rw [if_neg (by
        simp [work_queue_snapshot_required, work_queue_merge_required, hop, hs])]

/-- C9 witness: a merge enqueue without a merge id is rejected by the
CHECK constraints. -/
theorem work_queue_param_exclusivity_witness :
    insertWorkRow
      ⟨2, .bidirectionalMerge, none, none, [], .pending, none, none, 0,
       none, none⟩ [] = none :=
  (work_queue_param_exclusivity "s" "o" "c" "i" "m" "p" "st" [] 4 1 0
    true false []
    ⟨2, .bidirectionalMerge, none, none, [], .pending, none, none, 0,
     none, none⟩).2.2.2.1 rfl rfl

end SteepRepl
